import Mathlib

/-!
# Verification of the ISS tracker core (iss_tracker.py)

A shallow embedding of the query/cache core of the ISS ephemeris tracker:

* the JSON-like payload the Redis cache stores and `find_data_point` walks;
* the state-vector records of the upstream OEM feed;
* the `/epochs` range slice, the `/epochs/<epoch>` exact lookup, the
  `/epochs/<epoch>/speed` handler (including its unbound-local path), and the
  nearest-to-now scan of `/now`;
* the epoch-string handling of `compute_location_astropy` (line 97, the
  `strptime`/`strftime` round of the day-of-year timestamp);
* `fetch_and_store_iss_data`, both as a function of the cache contents and the
  fetch outcome, and as a two-caller interleaved state machine;
* `instantaneous_speed` over the reals.

Python floats appearing as data (positions, velocities) are modelled as
rationals; the speed computation, whose content is the real square root, is
modelled over `ℝ`.  Numbering in comments refers to source lines of
`src/iss_tracker.py`.
-/

namespace IssTracker

/-! ## JSON-like values (the payload `xmltodict.parse` / `json.loads` produce) -/

/-- A JSON-like value: what `json.loads` returns for the cached payload.
Python dicts are modelled as association lists (Python dict keys are unique;
lookup takes the first binding, which agrees with dict lookup on such lists). -/
inductive JValue where
  | obj : List (String × JValue) → JValue
  | arr : List JValue → JValue
  | str : String → JValue
  | num : ℚ → JValue
  | jbool : Bool → JValue
  | null : JValue

/-- `fields[k]` for a Python dict modelled as an association list:
the first binding of `k`, if any. -/
def lookupField : List (String × JValue) → String → Option JValue
  | [], _ => none
  | (k', v) :: rest, k => if k' = k then some v else lookupField rest k

/-- Model of `find_data_point` (iss_tracker.py lines 59-83): walk `keys` from
`data`; descend while the current value is a dict containing the key; return
`None` as soon as a key is missing or the current value is not a dict.  The
Lean function is total by construction, which is the counterpart of the
source's "never raises" behaviour (its `try` block cannot in fact raise: every
access is guarded by `isinstance`/`in` checks). -/
def find_data_point (data : JValue) : List String → Option JValue
  | [] => some data
  | k :: ks =>
    match data with
    | JValue.obj fields =>
      match lookupField fields k with
      | some v => find_data_point v ks
      | none => none
    | _ => none

/-- The claim-side path condition (from the claim's words, to compare
`find_data_point` against): each key of the path is present at a dict level,
and `w` is the value reached at the end. -/
inductive PathTo : JValue → List String → JValue → Prop where
  | nil (v : JValue) : PathTo v [] v
  | cons (fields : List (String × JValue)) (k : String) (ks : List String)
      (v w : JValue) (hk : lookupField fields k = some v) (hrest : PathTo v ks w) :
      PathTo (JValue.obj fields) (k :: ks) w

/-! ## State vectors -/

/-- One `stateVector` record of the feed, as the route handlers read it:
the raw `EPOCH` string plus the numeric position/velocity payload
(`float(i["X"]["#text"])` etc.), floats modelled as rationals. -/
structure StateVector where
  EPOCH : String
  X : ℚ
  Y : ℚ
  Z : ℚ
  X_DOT : ℚ
  Y_DOT : ℚ
  Z_DOT : ℚ
deriving DecidableEq

/-! ## The `/epochs` range slice (lines 142-174) -/

/-- Model of the slice logic of `entire_data` (iss_tracker.py lines 158-169),
for non-negative `offset`/`limit` (the claim's domain): `limit` defaults are
irrelevant here, the handler computes
`if offset >= len: []` then `limit = min(limit, len)` then
`list_of_data[offset : offset + limit]`.  A Python slice `l[a : a+b]` with
`0 <= a, b` is `(l.drop a).take b`. -/
def entire_data (series : List StateVector) (offset limit : ℕ) : List StateVector :=
  if series.length ≤ offset then []
  else (series.drop offset).take (min limit series.length)

/-! ## The `/epochs/<epoch>` exact lookup (lines 177-198) -/

/-- Model of the lookup loop of `state_vector` (iss_tracker.py lines 194-196):
scan the series in order, return the first record whose `EPOCH` equals the
query; fall through to the 404 (`none`) when no record matches. -/
def state_vector (series : List StateVector) (epoch : String) : Option StateVector :=
  match series with
  | [] => none
  | sv :: rest => if sv.EPOCH = epoch then some sv else state_vector rest epoch

/-! ## Day-of-year epoch strings

The feed timestamps look like `2025-069T12:32:00.000Z`.  Two call sites of
iss_tracker.py re-derive instants from them:

* line 97 (`compute_location_astropy`):
  `time.strftime('%Y-%m-%d %H:%M:%S', time.strptime(sv['EPOCH'][:-5], '%Y-%jT%H:%M:%S'))`
* line 295 (`get_now_data`):
  `time.mktime(time.strptime(sv["EPOCH"], "%Y-%jT%H:%M:%S.000Z"))`

We model `strptime` on the canonical zero-padded feed strings by fixed-width
field parsing with the same range checks Python's `_strptime` enforces
(`%j` in 1..366, `%H` in 0..23, `%M` in 0..59, `%S` in 0..61). -/

/-- Numeric value of a decimal digit character, `none` for a non-digit. -/
def digitVal (c : Char) : Option ℕ :=
  if '0' ≤ c ∧ c ≤ '9' then some (c.toNat - '0'.toNat) else none

/-- The two-digit number `ab`, when both characters are digits. -/
def digits2 (a b : Char) : Option ℕ := do
  let x ← digitVal a
  let y ← digitVal b
  some (10 * x + y)

/-- The three-digit number `abc`, when all characters are digits. -/
def digits3 (a b c : Char) : Option ℕ := do
  let x ← digitVal a
  let y ← digits2 b c
  some (100 * x + y)

/-- The four-digit number `abcd`, when all characters are digits. -/
def digits4 (a b c d : Char) : Option ℕ := do
  let x ← digits2 a b
  let y ← digits2 c d
  some (100 * x + y)

/-- The `(year, dayOfYear, hour, minute, second)` fields of a day-of-year
timestamp, from its thirteen digit characters, with `strptime`'s range
checks. -/
def doyFields (y1 y2 y3 y4 d1 d2 d3 h1 h2 n1 n2 s1 s2 : Char) :
    Option (ℕ × ℕ × ℕ × ℕ × ℕ) := do
  let year ← digits4 y1 y2 y3 y4
  let doy ← digits3 d1 d2 d3
  let hour ← digits2 h1 h2
  let minute ← digits2 n1 n2
  let second ← digits2 s1 s2
  if 1 ≤ doy ∧ doy ≤ 366 ∧ hour ≤ 23 ∧ minute ≤ 59 ∧ second ≤ 61 then
    some (year, doy, hour, minute, second)
  else none

/-- Model of `time.strptime(s, '%Y-%jT%H:%M:%S')` on canonical zero-padded
strings `YYYY-DDDTHH:MM:SS`. -/
def strptimeDoy (s : String) : Option (ℕ × ℕ × ℕ × ℕ × ℕ) :=
  match s.toList with
  | [y1, y2, y3, y4, '-', d1, d2, d3, 'T', h1, h2, ':', n1, n2, ':', s1, s2] =>
    doyFields y1 y2 y3 y4 d1 d2 d3 h1 h2 n1 n2 s1 s2
  | _ => none

/-- Gregorian leap-year test, as Python's calendar uses it. -/
def isLeapYear (y : ℕ) : Bool :=
  (y % 4 == 0 && y % 100 != 0) || y % 400 == 0

/-- The month lengths of year `y`, January first. -/
def monthLengths (y : ℕ) : List ℕ :=
  [31, if isLeapYear y then 29 else 28, 31, 30, 31, 30, 31, 31, 30, 31, 30, 31]

/-- Walk the month lengths to turn a day-of-year into `(month, day)`. -/
def monthDayGo (m d : ℕ) : List ℕ → ℕ × ℕ
  | [] => (m, d)
  | len :: rest => if d ≤ len then (m, d) else monthDayGo (m + 1) (d - len) rest

/-- `(month, day)` of day-of-year `doy` in year `y`, for `doy` within the
year's length (the only case line 97's round reaches for feed epochs; Python
would roll a non-leap-year day 366 into the next year, a case no theorem
below evaluates). -/
def monthDayOfDoy (y doy : ℕ) : ℕ × ℕ :=
  monthDayGo 1 doy (monthLengths y)

/-- `n` rendered in decimal, left-padded with zeros to width 2. -/
def pad2 (n : ℕ) : String :=
  if n < 10 then "0" ++ toString n else toString n

/-- `n` rendered in decimal, left-padded with zeros to width 4. -/
def pad4 (n : ℕ) : String :=
  if n < 10 then "000" ++ toString n
  else if n < 100 then "00" ++ toString n
  else if n < 1000 then "0" ++ toString n
  else toString n

/-- Model of iss_tracker.py line 97: slice the last five characters off the
raw epoch (`sv['EPOCH'][:-5]`, dropping `.fffZ` — including any sub-second
digits), parse the rest as `%Y-%jT%H:%M:%S`, and re-format the result with
`time.strftime('%Y-%m-%d %H:%M:%S', ...)`, a calendar-date string. -/
def codeEpochRoundTrip (e : String) : Option String :=
  let sliced := String.mk (e.toList.dropLast.dropLast.dropLast.dropLast.dropLast)
  match strptimeDoy sliced with
  | none => none
  | some (y, j, h, mi, se) =>
    let md := monthDayOfDoy y j
    some (pad4 y ++ "-" ++ pad2 md.1 ++ "-" ++ pad2 md.2 ++ " " ++
      pad2 h ++ ":" ++ pad2 mi ++ ":" ++ pad2 se)

/-! ## The `/now` nearest-epoch scan (lines 260-308) -/

/-- Civil days in years `0, 1, …, y-1` of the proleptic Gregorian calendar:
`daysBeforeYear (y+1) - daysBeforeYear y` is 366 for leap `y`, else 365. -/
def daysBeforeYear (y : ℕ) : ℕ :=
  365 * y + (y + 3) / 4 - (y + 99) / 100 + (y + 399) / 400

/-- Seconds (on a linear civil clock) of the parsed timestamp fields.  Python's
`time.mktime` interprets the struct in local time, a fixed offset that the
nearest-scan applies to the target and to every epoch alike, so it cancels in
every difference the loop compares; the model uses offset zero. -/
def epochSeconds (y doy h mi se : ℕ) : ℕ :=
  (daysBeforeYear y + (doy - 1)) * 86400 + h * 3600 + mi * 60 + se

/-- Model of iss_tracker.py line 295,
`time.mktime(time.strptime(sv["EPOCH"], "%Y-%jT%H:%M:%S.000Z"))`:
the format string hard-codes the fraction `.000Z`, so only whole-second
epochs written with `.000Z` parse; anything else raises `ValueError`,
which the loop catches and skips (`none` here). -/
def parseEpochNow (s : String) : Option ℕ :=
  match s.toList with
  | [y1, y2, y3, y4, '-', d1, d2, d3, 'T', h1, h2, ':', n1, n2, ':', s1, s2,
      '.', '0', '0', '0', 'Z'] =>
    match doyFields y1 y2 y3 y4 d1 d2 d3 h1 h2 n1 n2 s1 s2 with
    | some (y, j, h, mi, se) => some (epochSeconds y j h mi se)
    | none => none
  | _ => none

/-- One iteration of the `/now` loop (iss_tracker.py lines 292-304): parse the
record's epoch (skip it on failure), and replace the best-so-far exactly when
the new distance to `now` is strictly smaller (`time_diff < closest_time_diff`;
the initial `float("inf")` best is the `none` accumulator). -/
def nearestStep (now : ℤ) (acc : Option (StateVector × ℕ)) (sv : StateVector) :
    Option (StateVector × ℕ) :=
  match parseEpochNow sv.EPOCH with
  | none => acc
  | some t =>
    let d := (now - (t : ℤ)).natAbs
    match acc with
    | none => some (sv, d)
    | some (b, bd) => if d < bd then some (sv, d) else some (b, bd)

/-- Model of the nearest-epoch selection of `get_now_data` (iss_tracker.py
lines 288-308): fold the loop over the series and return the chosen record
(`closest_epoch`), `none` when the loop never found a parseable epoch (the
handler's "No valid epochs found" branch). -/
def get_now_data (series : List StateVector) (now : ℤ) : Option StateVector :=
  (series.foldl (nearestStep now) none).map Prod.fst

/-- The parsed epoch of a record, defaulting to 0; under the claims'
hypothesis that every epoch parses this is the value the loop compares. -/
def epochVal (sv : StateVector) : ℕ :=
  (parseEpochNow sv.EPOCH).getD 0

/-- The distance from `now` that the loop computes for a record. -/
def epochDist (now : ℤ) (sv : StateVector) : ℕ :=
  (now - (epochVal sv : ℤ)).natAbs

/-! ## The fetch-and-cache discipline (lines 27-57) -/

/-- The outcome of the one `requests.get` call inside
`fetch_and_store_iss_data`: a 200 with a parsed payload, a non-200 status, or
a raised `requests.exceptions.RequestException`. -/
inductive FetchOutcome where
  | success (payload : JValue)
  | httpFailure (statusCode : ℕ)
  | requestException

/-- `true` exactly when the upstream fetch did not deliver data. -/
def FetchOutcome.failed : FetchOutcome → Bool
  | .success _ => false
  | .httpFailure _ => true
  | .requestException => true

/-- Model of `fetch_and_store_iss_data` (iss_tracker.py lines 27-57) as a
function of the current cache contents (`rd.get`) and of what the upstream
fetch would do: if the cache holds data it is returned at once (lines 39-42,
no fetch is attempted, so a failing upstream is never consulted and never
surfaced); on a cache miss a 200 response is parsed, stored and returned
(lines 45-51), and a non-200 status or a request exception yields `None`
(lines 52-57).  Result: `(value returned to the caller, cache afterwards)`. -/
def fetch_and_store_iss_data (cache : Option JValue) (outcome : FetchOutcome) :
    Option JValue × Option JValue :=
  match cache with
  | some d => (some d, some d)
  | none =>
    match outcome with
    | .success d => (some d, some d)
    | .httpFailure _ => (none, none)
    | .requestException => (none, none)

/-! ## Two concurrent callers of `fetch_and_store_iss_data`

The function holds no lock between its `rd.get` (line 39) and its
`requests.get` + `rd.set` (lines 45-49), so two request threads can
interleave between the cache read and the store.  Each caller is a two-step
program over the shared cache; the payload type is a parameter so the
theorems can instantiate it concretely. -/

/-- The shared state: the cache cell and how many upstream fetches
have been issued so far. -/
structure CacheMachine (α : Type) where
  cache : Option α
  fetchCount : ℕ
deriving DecidableEq

/-- A caller's program counter: about to read the cache; saw a miss and about
to fetch-and-store; finished with a result. -/
inductive CallerPC (α : Type) where
  | start
  | missed
  | done (result : Option α)
deriving DecidableEq

/-- One step of one caller of `fetch_and_store_iss_data`.  From `start`, the
`rd.get` of line 39: a hit finishes with the cached value, a miss moves to
`missed`.  From `missed`, lines 45-51 as one step: the upstream fetch
(counted) succeeds with `payload`, is stored, and the caller finishes. -/
def callerStep (payload : α) :
    CacheMachine α × CallerPC α → CacheMachine α × CallerPC α
  | (g, .start) =>
    match g.cache with
    | some d => (g, .done (some d))
    | none => (g, .missed)
  | (g, .missed) =>
    ({ cache := some payload, fetchCount := g.fetchCount + 1 }, .done (some payload))
  | (g, .done r) => (g, .done r)

/-- Two callers sharing the cache; `tid` picks which one steps. -/
def sysStep (payload : α) (s : CacheMachine α × CallerPC α × CallerPC α)
    (tid : Bool) : CacheMachine α × CallerPC α × CallerPC α :=
  match s with
  | (g, p0, p1) =>
    if tid then
      let gp := callerStep payload (g, p1)
      (gp.1, p0, gp.2)
    else
      let gp := callerStep payload (g, p0)
      (gp.1, gp.2, p1)

/-- Run a schedule (a list of thread choices) from the `Empty` cache with both
callers at their entry point. -/
def runSchedule (payload : α) (sched : List Bool) :
    CacheMachine α × CallerPC α × CallerPC α :=
  sched.foldl (sysStep payload) (⟨none, 0⟩, .start, .start)

/-! ## The `/epochs/<epoch>/speed` handler (lines 200-223) -/

/-- What the speed handler can do: answer 200 with the epoch and the computed
speed (carried here as the squared speed `vx² + vy² + vz²`, the rational the
handler feeds to `math.sqrt`); answer the structured 404; or let an uncaught
`NameError` escape. -/
inductive SpeedRouteResult where
  | ok (epoch : String) (speedSquared : ℚ)
  | epochNotFound
  | nameErrorRaised
deriving DecidableEq

/-- The handler's loop (iss_tracker.py lines 215-223): first record matching
the epoch answers with its speed, otherwise the structured 404. -/
def speedLoop (series : List StateVector) (epoch : String) : SpeedRouteResult :=
  match series with
  | [] => .epochNotFound
  | sv :: rest =>
    if sv.EPOCH = epoch then
      .ok epoch (sv.X_DOT ^ 2 + sv.Y_DOT ^ 2 + sv.Z_DOT ^ 2)
    else speedLoop rest epoch

/-- Model of `get_instantaneous_speed` (iss_tracker.py lines 200-223).  The
local `list_of_data` is assigned only inside the `if cached_data:` block
(lines 211-213), yet the `for i in list_of_data:` loop at line 215 sits
outside that block; the local environment is modelled explicitly as an
`Option` binding, and reading the unbound local raises `NameError`.  The
JSON decoding and `find_data_point` chain of the bound branch, which cannot
run on the empty-cache path, is collapsed into the cached series. -/
def get_instantaneous_speed (cache : Option (List StateVector)) (epoch : String) :
    SpeedRouteResult :=
  let list_of_data : Option (List StateVector) :=
    match cache with
    | some series => some series
    | none => none
  match list_of_data with
  | some series => speedLoop series epoch
  | none => .nameErrorRaised

/-! ## Instantaneous speed (lines 130-140) -/

/-- Model of `instantaneous_speed` (iss_tracker.py line 140),
`math.sqrt((x**2) + (y**2) + (z**2))`, over the reals. -/
noncomputable def instantaneous_speed (x y z : ℝ) : ℝ :=
  Real.sqrt (x ^ 2 + y ^ 2 + z ^ 2)

/-! ## Concrete sample records (used by the witness theorems) -/

/-- A sample state vector at `2025-069T12:00:00.000Z`. -/
def svA : StateVector :=
  ⟨"2025-069T12:00:00.000Z", 4000, 5000, 6000, 1, 2, 3⟩

/-- A sample state vector at `2025-069T12:04:00.000Z`. -/
def svB : StateVector :=
  ⟨"2025-069T12:04:00.000Z", 4100, 4900, 6100, 2, 3, 4⟩

/-- A sample state vector at `2025-069T12:08:00.000Z`. -/
def svC : StateVector :=
  ⟨"2025-069T12:08:00.000Z", 4200, 4800, 6200, 3, 4, 5⟩

/-- A record sharing `svA`'s epoch with a different payload (the feed is not
guaranteed not to repeat a timestamp). -/
def svDup : StateVector :=
  ⟨"2025-069T12:00:00.000Z", 7000, 7000, 7000, 9, 9, 9⟩

/-- A record whose epoch carries a non-zero fraction, `2025-069T12:00:00.500Z`
— valid per the feed format `YYYY-DDDTHH:MM:SS[.fff]Z`, but not parseable by
the `/now` loop's hard-coded `.000Z` literal. -/
def svF : StateVector :=
  ⟨"2025-069T12:00:00.500Z", 4000, 5000, 6000, 1, 2, 3⟩

/-- A whole-second record one hour after `svF`, `2025-069T13:00:00.000Z`. -/
def svG : StateVector :=
  ⟨"2025-069T13:00:00.000Z", 4300, 4700, 6300, 4, 5, 6⟩

/-- The instant of a feed epoch string in milliseconds, following the spec's
words for the feed format `YYYY-DDDTHH:MM:SS[.fff]Z` (§4.1: four-digit year,
zero-padded three-digit day-of-year, clock time, *optional* fractional
seconds, trailing `Z`): the claim-side reading of an epoch, against which the
scan's skipping of fractional epochs is stated. -/
def specEpochMillis (s : String) : Option ℕ :=
  match s.toList with
  | [y1, y2, y3, y4, '-', d1, d2, d3, 'T', h1, h2, ':', n1, n2, ':', s1, s2, 'Z'] =>
    match doyFields y1 y2 y3 y4 d1 d2 d3 h1 h2 n1 n2 s1 s2 with
    | some (y, j, h, mi, se) => some (epochSeconds y j h mi se * 1000)
    | none => none
  | [y1, y2, y3, y4, '-', d1, d2, d3, 'T', h1, h2, ':', n1, n2, ':', s1, s2,
      '.', f1, f2, f3, 'Z'] =>
    match doyFields y1 y2 y3 y4 d1 d2 d3 h1 h2 n1 n2 s1 s2, digits3 f1 f2 f3 with
    | some (y, j, h, mi, se), some f => some (epochSeconds y j h mi se * 1000 + f)
    | _, _ => none
  | _ => none

/-- How many fetches a caller may still issue: one before it is done,
none afterwards. -/
def pendingFetches : CallerPC α → ℕ
  | .done _ => 0
  | _ => 1

/-!
# Theorems
-/

/-! ## C1 — the day-of-year epoch round trip -/

/-- C1: the claim says that parsing a valid feed epoch string and reformatting
the parsed instant back to the canonical string form reproduces it exactly,
including sub-second precision.  The code (iss_tracker.py line 97) does not:
it slices off the last five characters (losing the `.500` fraction — both
`…00.500Z` and `…00.000Z` parse to the same instant) and re-formats as a
calendar-date string without fraction or zone, so no input is reproduced. -/
theorem epoch_roundtrip_dropped_C1 :
    codeEpochRoundTrip "2025-069T12:32:00.500Z" = some "2025-03-10 12:32:00" ∧
    codeEpochRoundTrip "2025-069T12:32:00.000Z" = some "2025-03-10 12:32:00" ∧
    ("2025-03-10 12:32:00" : String) ≠ "2025-069T12:32:00.500Z" ∧
    ("2025-03-10 12:32:00" : String) ≠ "2025-069T12:32:00.000Z" := by
  refine ⟨by decide, by decide, by decide, by decide⟩

/-! ## C2 — the `/epochs` range slice -/

/-- C2: for every series and every `offset, limit ≥ 0` the range query is
total (the model is a total function), returns the slice
`series[offset : offset+limit]` of length `min limit (length - offset)` when
`offset < length`, and the empty list when `offset ≥ length`. -/
theorem entire_data_slice_C2 (series : List StateVector) (offset limit : ℕ) :
    (offset < series.length →
      entire_data series offset limit = (series.drop offset).take limit ∧
      (entire_data series offset limit).length = min limit (series.length - offset)) ∧
    (series.length ≤ offset → entire_data series offset limit = []) := by
  constructor
  · intro h
    have hnot : ¬ series.length ≤ offset := not_le.mpr h
    have heq : entire_data series offset limit = (series.drop offset).take limit := by
      rw [entire_data, if_neg hnot]
      rcases le_total limit series.length with hl | hl
      · rw [min_eq_left hl]
      · rw [min_eq_right hl, List.take_of_length_le, List.take_of_length_le]
        · rw [List.length_drop]
          exact le_trans (Nat.sub_le _ _) hl
        · rw [List.length_drop]
          exact Nat.sub_le _ _
    refine ⟨heq, ?_⟩
    rw [heq, List.length_take, List.length_drop]
  · intro h
    rw [entire_data, if_pos h]

/-! ## C4 — serve-stale on fetch failure -/

/-- C4: when the upstream fetch fails and a previously fetched payload is in
the cache, the caller still receives the previous payload (the code returns
the cached data before ever consulting the upstream, so the failure cannot
surface); when the cache is empty, the failure surfaces to the caller as the
`None` return that stands for `CacheUnavailable`. -/
theorem serve_stale_C4 (cache : Option JValue) (outcome : FetchOutcome)
    (hfail : outcome.failed = true) :
    (∀ s, cache = some s → (fetch_and_store_iss_data cache outcome).1 = some s) ∧
    (cache = none → (fetch_and_store_iss_data cache outcome).1 = none) := by
  constructor
  · rintro s rfl
    rfl
  · rintro rfl
    cases outcome with
    | success d => simp [FetchOutcome.failed] at hfail
    | httpFailure c => rfl
    | requestException => rfl

/-- C4 witness: a concrete failing fetch against a warm and against an empty
cache. -/
theorem serve_stale_C4_witness :
    (fetch_and_store_iss_data (some JValue.null) .requestException).1 =
      some JValue.null ∧
    (fetch_and_store_iss_data none .requestException).1 = none :=
  ⟨(serve_stale_C4 (some JValue.null) .requestException rfl).1 JValue.null rfl,
   (serve_stale_C4 none .requestException rfl).2 rfl⟩

/-! ## C5 — single-flight -/

/-- C5 counterexample: two concurrent callers against the `Empty` cache, under
the interleaving where both read the cache before either stores, both complete
and two upstream fetches are issued — not one.  The code holds no lock between
its cache read (line 39) and its fetch-and-store (lines 45-49). -/
theorem single_flight_interleaving_C5 :
    (runSchedule (0 : ℕ) [false, true, false, true]).1.fetchCount = 2 ∧
    (runSchedule (0 : ℕ) [false, true, false, true]).2.1 =
      CallerPC.done (some 0) ∧
    (runSchedule (0 : ℕ) [false, true, false, true]).2.2 =
      CallerPC.done (some 0) ∧
    (2 : ℕ) ≠ 1 := by
  refine ⟨by decide, by decide, by decide, by decide⟩

/-- Each step preserves the bound: issued fetches plus fetches the two callers
may still issue never exceed two. -/
theorem sysStep_fetch_bound (payload : α)
    (s : CacheMachine α × CallerPC α × CallerPC α) (tid : Bool)
    (hs : s.1.fetchCount + pendingFetches s.2.1 + pendingFetches s.2.2 ≤ 2) :
    (sysStep payload s tid).1.fetchCount +
      pendingFetches (sysStep payload s tid).2.1 +
      pendingFetches (sysStep payload s tid).2.2 ≤ 2 := by
  obtain ⟨g, p0, p1⟩ := s
  cases tid
  · cases p0 with
    | start =>
      cases hc : g.cache <;> simp_all [sysStep, callerStep, pendingFetches]
      all_goals omega
    | missed =>
      simp_all [sysStep, callerStep, pendingFetches]
    | done r =>
      simp_all [sysStep, callerStep, pendingFetches]
  · cases p1 with
    | start =>
      cases hc : g.cache <;> simp_all [sysStep, callerStep, pendingFetches]
      all_goals omega
    | missed =>
      simp_all [sysStep, callerStep, pendingFetches]
      all_goals omega
    | done r =>
      simp_all [sysStep, callerStep, pendingFetches]

/-- The bound holds along every schedule from the empty cache. -/
theorem runSchedule_fetch_bound (payload : α) (sched : List Bool) :
    (runSchedule payload sched).1.fetchCount +
      pendingFetches (runSchedule payload sched).2.1 +
      pendingFetches (runSchedule payload sched).2.2 ≤ 2 := by
  rw [runSchedule]
  induction sched using List.list_reverse_induction with
  | base => simp [pendingFetches]
  | ind l b ih =>
    rw [List.foldl_append, List.foldl_cons, List.foldl_nil]
    exact sysStep_fetch_bound payload _ b ih

/-- C5 amended: the code has no single-flight guard, so each caller that
observes the empty cache issues its own fetch — with two concurrent callers
between one and two fetches are issued depending on the interleaving, never
more than one per caller; a caller that observes the stored payload issues
none, so the fully serialized schedule issues exactly one fetch and still
serves both callers. -/
theorem single_flight_amended_C5 :
    (runSchedule (0 : ℕ) [false, false, true]).1.fetchCount = 1 ∧
    (runSchedule (0 : ℕ) [false, false, true]).2.1 = CallerPC.done (some 0) ∧
    (runSchedule (0 : ℕ) [false, false, true]).2.2 = CallerPC.done (some 0) ∧
    ∀ sched : List Bool, (runSchedule (0 : ℕ) sched).1.fetchCount ≤ 2 := by
  refine ⟨by decide, by decide, by decide, fun sched => ?_⟩
  have h := runSchedule_fetch_bound (0 : ℕ) sched
  omega

/-! ## C7 — exact epoch lookup, first match wins -/

/-- C7: the `/epochs/<epoch>` lookup returns the first record in series order
whose epoch equals the query — every record before it in the series does not
match — and returns `none` (the 404) exactly when no record matches. -/
theorem state_vector_first_match_C7 (series : List StateVector) (epoch : String) :
    (∀ r, state_vector series epoch = some r →
      r.EPOCH = epoch ∧
      ∃ pre post, series = pre ++ r :: post ∧ ∀ sv ∈ pre, sv.EPOCH ≠ epoch) ∧
    (state_vector series epoch = none ↔ ∀ sv ∈ series, sv.EPOCH ≠ epoch) := by
  induction series with
  | nil =>
    refine ⟨fun r hr => by simp [state_vector] at hr, ?_⟩
    simp [state_vector]
  | cons sv rest ih =>
    by_cases h : sv.EPOCH = epoch
    · refine ⟨fun r hr => ?_, ?_⟩
      · rw [state_vector, if_pos h] at hr
        obtain rfl : sv = r := by injection hr
        exact ⟨h, [], rest, rfl, by simp⟩
      · rw [state_vector, if_pos h]
        constructor
        · intro hfalse
          exact absurd hfalse (by simp)
        · intro hall
          exact absurd h (hall sv (by simp))
    · refine ⟨fun r hr => ?_, ?_⟩
      · rw [state_vector, if_neg h] at hr
        obtain ⟨hre, pre, post, hsplit, hpre⟩ := ih.1 r hr
        refine ⟨hre, sv :: pre, post, by rw [hsplit]; rfl, ?_⟩
        intro x hx
        rcases List.mem_cons.mp hx with rfl | hx'
        · exact h
        · exact hpre x hx'
      · rw [state_vector, if_neg h, ih.2]
        simp [h]

/-! ## C8 — the speed handler on an empty cache -/

/-- C8: with nothing in the cache, the speed handler reads the local
`list_of_data` that was never bound (it is assigned only inside the
`if cached_data:` block) and an unhandled `NameError` escapes, instead of the
structured not-found answer the other branch produces. -/
theorem speed_route_nameerror_C8 (epoch : String) :
    get_instantaneous_speed none epoch = SpeedRouteResult.nameErrorRaised ∧
    SpeedRouteResult.nameErrorRaised ≠ SpeedRouteResult.epochNotFound :=
  ⟨rfl, by decide⟩

/-! ## C3 — the `/now` nearest-epoch scan -/

/-- A step from a `some` accumulator stays `some`. -/
theorem nearestStep_isSome (now : ℤ) (p : StateVector × ℕ) (sv : StateVector) :
    (nearestStep now (some p) sv).isSome = true := by
  obtain ⟨b, bd⟩ := p
  cases hpx : parseEpochNow sv.EPOCH with
  | none => simp [nearestStep, hpx]
  | some t =>
    simp only [nearestStep, hpx]
    split <;> simp

/-- The fold keeps a `some` accumulator `some`. -/
theorem nearest_fold_isSome (now : ℤ) (l : List StateVector) :
    ∀ acc : Option (StateVector × ℕ),
      acc.isSome = true → (l.foldl (nearestStep now) acc).isSome = true := by
  induction l with
  | nil => intro acc h; simpa using h
  | cons x l ih =>
    intro acc h
    rw [List.foldl_cons]
    obtain ⟨p, rfl⟩ := Option.isSome_iff_exists.mp h
    exact ih _ (nearestStep_isSome now p x)

/-- On a non-empty series whose head epoch parses, the scan finds a record. -/
theorem nearest_fold_some_of_parse (now : ℤ) (x : StateVector) (l : List StateVector)
    (hx : (parseEpochNow x.EPOCH).isSome = true) :
    ((x :: l).foldl (nearestStep now) none).isSome = true := by
  rw [List.foldl_cons]
  obtain ⟨t, ht⟩ := Option.isSome_iff_exists.mp hx
  exact nearest_fold_isSome now l _ (by simp [nearestStep, ht])

/-- What the scan's result satisfies: it is the accumulator or a scanned
record with its parsed distance, it is no farther than the accumulator,
and no farther than any scanned record that parses. -/
theorem nearest_fold_spec (now : ℤ) (l : List StateVector) :
    ∀ (acc : Option (StateVector × ℕ)) (r : StateVector) (d : ℕ),
      l.foldl (nearestStep now) acc = some (r, d) →
      (acc = some (r, d) ∨
        (r ∈ l ∧ ∃ t, parseEpochNow r.EPOCH = some t ∧ d = (now - (t : ℤ)).natAbs)) ∧
      (∀ b bd, acc = some (b, bd) → d ≤ bd) ∧
      (∀ sv ∈ l, ∀ t, parseEpochNow sv.EPOCH = some t → d ≤ (now - (t : ℤ)).natAbs) := by
  induction l with
  | nil =>
    intro acc r d h
    rw [List.foldl_nil] at h
    refine ⟨Or.inl h, ?_, ?_⟩
    · intro b bd hb
      rw [hb] at h
      simp only [Option.some.injEq, Prod.mk.injEq] at h
      omega
    · intro sv hsv
      exact absurd hsv (by simp)
  | cons x l ih =>
    intro acc r d h
    rw [List.foldl_cons] at h
    cases hpx : parseEpochNow x.EPOCH with
    | none =>
      have hacc : nearestStep now acc x = acc := by simp [nearestStep, hpx]
      rw [hacc] at h
      obtain ⟨ih1, ih2, ih3⟩ := ih acc r d h
      refine ⟨?_, ih2, ?_⟩
      · rcases ih1 with h1 | ⟨hmem, t, hpt, hd⟩
        · exact Or.inl h1
        · exact Or.inr ⟨List.mem_cons_of_mem x hmem, t, hpt, hd⟩
      · intro sv hsv t hpt
        rcases List.mem_cons.mp hsv with rfl | hsv'
        · rw [hpx] at hpt
          exact absurd hpt (by simp)
        · exact ih3 sv hsv' t hpt
    | some tx =>
      cases acc with
      | none =>
        have hacc : nearestStep now none x = some (x, (now - (tx : ℤ)).natAbs) := by
          simp [nearestStep, hpx]
        rw [hacc] at h
        obtain ⟨ih1, ih2, ih3⟩ := ih _ r d h
        refine ⟨?_, ?_, ?_⟩
        · rcases ih1 with h1 | ⟨hmem, t, hpt, hd⟩
          · simp only [Option.some.injEq, Prod.mk.injEq] at h1
            obtain ⟨rfl, rfl⟩ := h1
            exact Or.inr ⟨List.mem_cons_self x l, tx, hpx, rfl⟩
          · exact Or.inr ⟨List.mem_cons_of_mem x hmem, t, hpt, hd⟩
        · intro b bd hb
          exact absurd hb (by simp)
        · intro sv hsv t hpt
          rcases List.mem_cons.mp hsv with rfl | hsv'
          · rw [hpx] at hpt
            simp only [Option.some.injEq] at hpt
            subst hpt
            exact ih2 sv _ rfl
          · exact ih3 sv hsv' t hpt
      | some p =>
        obtain ⟨b, bd⟩ := p
        by_cases hlt : (now - (tx : ℤ)).natAbs < bd
        · have hacc : nearestStep now (some (b, bd)) x =
              some (x, (now - (tx : ℤ)).natAbs) := by
            simp [nearestStep, hpx, hlt]
          rw [hacc] at h
          obtain ⟨ih1, ih2, ih3⟩ := ih _ r d h
          have hdx : d ≤ (now - (tx : ℤ)).natAbs := ih2 x _ rfl
          refine ⟨?_, ?_, ?_⟩
          · rcases ih1 with h1 | ⟨hmem, t, hpt, hd⟩
            · simp only [Option.some.injEq, Prod.mk.injEq] at h1
              obtain ⟨rfl, rfl⟩ := h1
              exact Or.inr ⟨List.mem_cons_self x l, tx, hpx, rfl⟩
            · exact Or.inr ⟨List.mem_cons_of_mem x hmem, t, hpt, hd⟩
          · intro b' bd' hb
            simp only [Option.some.injEq, Prod.mk.injEq] at hb
            omega
          · intro sv hsv t hpt
            rcases List.mem_cons.mp hsv with rfl | hsv'
            · rw [hpx] at hpt
              simp only [Option.some.injEq] at hpt
              subst hpt
              exact hdx
            · exact ih3 sv hsv' t hpt
        · have hacc : nearestStep now (some (b, bd)) x = some (b, bd) := by
            simp [nearestStep, hpx, hlt]
          rw [hacc] at h
          obtain ⟨ih1, ih2, ih3⟩ := ih _ r d h
          have hdb : d ≤ bd := ih2 b bd rfl
          refine ⟨?_, ?_, ?_⟩
          · rcases ih1 with h1 | ⟨hmem, t, hpt, hd⟩
            · exact Or.inl h1
            · exact Or.inr ⟨List.mem_cons_of_mem x hmem, t, hpt, hd⟩
          · intro b' bd' hb
            simp only [Option.some.injEq, Prod.mk.injEq] at hb
            omega
          · intro sv hsv t hpt
            rcases List.mem_cons.mp hsv with rfl | hsv'
            · rw [hpx] at hpt
              simp only [Option.some.injEq] at hpt
              subst hpt
              omega
            · exact ih3 sv hsv' t hpt

/-- The tie-break of the scan: strict improvement only, so on an exact tie the
record already held wins; with the series sorted ascending by epoch the winner
has the least epoch among the tied. -/
theorem nearest_fold_tie (now : ℤ) (l : List StateVector) :
    ∀ (acc : Option (StateVector × ℕ)) (r : StateVector) (d : ℕ),
      List.Pairwise (fun a b => epochVal a ≤ epochVal b) l →
      (∀ b bd, acc = some (b, bd) → ∀ sv ∈ l, epochVal b ≤ epochVal sv) →
      l.foldl (nearestStep now) acc = some (r, d) →
      (∀ b bd, acc = some (b, bd) → d = bd → r = b) ∧
      (∀ sv ∈ l, ∀ t, parseEpochNow sv.EPOCH = some t →
        (now - (t : ℤ)).natAbs = d → epochVal r ≤ epochVal sv) := by
  induction l with
  | nil =>
    intro acc r d _ _ h
    rw [List.foldl_nil] at h
    refine ⟨?_, ?_⟩
    · intro b bd hb _
      rw [hb] at h
      simp only [Option.some.injEq, Prod.mk.injEq] at h
      exact h.1.symm
    · intro sv hsv
      exact absurd hsv (by simp)
  | cons x l ih =>
    intro acc r d hp hcomp h
    rw [List.foldl_cons] at h
    obtain ⟨hx, hp'⟩ := List.pairwise_cons.mp hp
    cases hpx : parseEpochNow x.EPOCH with
    | none =>
      have hacc : nearestStep now acc x = acc := by simp [nearestStep, hpx]
      rw [hacc] at h
      have hcomp' : ∀ b bd, acc = some (b, bd) → ∀ sv ∈ l, epochVal b ≤ epochVal sv :=
        fun b bd hb sv hsv => hcomp b bd hb sv (List.mem_cons_of_mem x hsv)
      obtain ⟨ihB, ihA⟩ := ih acc r d hp' hcomp' h
      refine ⟨ihB, ?_⟩
      intro sv hsv t hpt hdt
      rcases List.mem_cons.mp hsv with rfl | hsv'
      · rw [hpx] at hpt
        exact absurd hpt (by simp)
      · exact ihA sv hsv' t hpt hdt
    | some tx =>
      have hvx : epochVal x = tx := by simp [epochVal, hpx]
      cases acc with
      | none =>
        have hacc : nearestStep now none x = some (x, (now - (tx : ℤ)).natAbs) := by
          simp [nearestStep, hpx]
        rw [hacc] at h
        have hcomp' : ∀ b bd,
            some (x, (now - (tx : ℤ)).natAbs) = some (b, bd) →
            ∀ sv ∈ l, epochVal b ≤ epochVal sv := by
          intro b bd hb sv hsv
          simp only [Option.some.injEq, Prod.mk.injEq] at hb
          rw [← hb.1]
          exact hvx ▸ hvx.symm ▸ hx sv hsv
        obtain ⟨ihB, ihA⟩ := ih _ r d hp' hcomp' h
        refine ⟨?_, ?_⟩
        · intro b bd hb
          exact absurd hb (by simp)
        · intro sv hsv t hpt hdt
          rcases List.mem_cons.mp hsv with rfl | hsv'
          · rw [hpx] at hpt
            simp only [Option.some.injEq] at hpt
            subst hpt
            have hr : r = sv := ihB sv _ rfl hdt.symm
            rw [hr]
          · exact ihA sv hsv' t hpt hdt
      | some p =>
        obtain ⟨b, bd⟩ := p
        by_cases hlt : (now - (tx : ℤ)).natAbs < bd
        · have hacc : nearestStep now (some (b, bd)) x =
              some (x, (now - (tx : ℤ)).natAbs) := by
            simp [nearestStep, hpx, hlt]
          rw [hacc] at h
          have hcomp' : ∀ b' bd',
              some (x, (now - (tx : ℤ)).natAbs) = some (b', bd') →
              ∀ sv ∈ l, epochVal b' ≤ epochVal sv := by
            intro b' bd' hb sv hsv
            simp only [Option.some.injEq, Prod.mk.injEq] at hb
            rw [← hb.1]
            exact hx sv hsv
          obtain ⟨ihB, ihA⟩ := ih _ r d hp' hcomp' h
          have hdx : d ≤ (now - (tx : ℤ)).natAbs :=
            (nearest_fold_spec now l _ r d h).2.1 x _ rfl
          refine ⟨?_, ?_⟩
          · intro b' bd' hb hdb
            simp only [Option.some.injEq, Prod.mk.injEq] at hb
            omega
          · intro sv hsv t hpt hdt
            rcases List.mem_cons.mp hsv with rfl | hsv'
            · rw [hpx] at hpt
              simp only [Option.some.injEq] at hpt
              subst hpt
              have hr : r = sv := ihB sv _ rfl hdt.symm
              rw [hr]
            · exact ihA sv hsv' t hpt hdt
        · have hacc : nearestStep now (some (b, bd)) x = some (b, bd) := by
            simp [nearestStep, hpx, hlt]
          rw [hacc] at h
          have hcomp' : ∀ b' bd', (some (b, bd) : Option (StateVector × ℕ)) = some (b', bd') →
              ∀ sv ∈ l, epochVal b' ≤ epochVal sv := by
            intro b' bd' hb sv hsv
            simp only [Option.some.injEq, Prod.mk.injEq] at hb
            rw [← hb.1]
            exact hcomp b bd rfl sv (List.mem_cons_of_mem x hsv)
          obtain ⟨ihB, ihA⟩ := ih _ r d hp' hcomp' h
          have hdb : d ≤ bd := (nearest_fold_spec now l _ r d h).2.1 b bd rfl
          refine ⟨?_, ?_⟩
          · intro b' bd' hb hdb'
            simp only [Option.some.injEq, Prod.mk.injEq] at hb
            exact ihB b' bd' (by rw [hb.1, hb.2]) hdb'
          · intro sv hsv t hpt hdt
            rcases List.mem_cons.mp hsv with rfl | hsv'
            · rw [hpx] at hpt
              simp only [Option.some.injEq] at hpt
              subst hpt
              have hdbd : d = bd := by omega
              have hr : r = b := ihB b bd rfl hdbd
              rw [hr]
              exact le_trans (hcomp b bd rfl sv (List.mem_cons_self sv l)) (le_refl _)
            · exact ihA sv hsv' t hpt hdt

/-- C3 counterexample: the claim fails as stated.  The `/now` loop's
hard-coded `strptime` format `%Y-%jT%H:%M:%S.000Z` (line 295) rejects
spec-valid epochs with a non-zero fraction, and the `ValueError` handler
silently skips the record.  So the non-empty series `[svF]` (epoch
`…00.500Z`) yields `none` — refuting "returns none only when the series is
empty" — and on `[svF, svG]` with the target at `svF`'s whole second the scan
returns `svG`, an hour away, although `svF`'s epoch (read per the spec's
format, half a second away) is strictly nearer. -/
theorem get_now_data_skips_fraction_C3 :
    get_now_data [svF] 63908827200 = none ∧
    ([svF] : List StateVector) ≠ [] ∧
    get_now_data [svF, svG] 63908827200 = some svG ∧
    specEpochMillis svF.EPOCH = some 63908827200500 ∧
    specEpochMillis svG.EPOCH = some 63908830800000 ∧
    ((63908827200500 : ℤ) - 63908827200 * 1000).natAbs <
      ((63908830800000 : ℤ) - 63908827200 * 1000).natAbs := by
  refine ⟨by decide, by decide, by decide, by decide, by decide, by decide⟩

/-- C3 amended: restricted to series whose epochs are written in the
whole-second `.000Z` form that the loop's hard-coded format parses (any other
fraction is silently skipped, see the counterexample), sorted ascending by
epoch: the `/now` scan returns a record no other record beats in distance to
the target, with the earliest epoch winning an exact tie; on the empty series
it returns `none`. -/
theorem get_now_data_nearest_C3 (series : List StateVector) (now : ℤ)
    (hne : series ≠ [])
    (hok : ∀ sv ∈ series, (parseEpochNow sv.EPOCH).isSome = true)
    (hsorted : List.Pairwise (fun a b => epochVal a ≤ epochVal b) series) :
    (∃ r, get_now_data series now = some r ∧ r ∈ series ∧
      (∀ sv ∈ series, epochDist now r ≤ epochDist now sv) ∧
      (∀ sv ∈ series, epochDist now sv = epochDist now r → epochVal r ≤ epochVal sv)) ∧
    get_now_data [] now = none := by
  refine ⟨?_, rfl⟩
  obtain ⟨x, l, rfl⟩ : ∃ x l, series = x :: l := by
    cases series with
    | nil => exact absurd rfl hne
    | cons x l => exact ⟨x, l, rfl⟩
  have hsome : ((x :: l).foldl (nearestStep now) none).isSome = true :=
    nearest_fold_some_of_parse now x l (hok x (List.mem_cons_self x l))
  obtain ⟨⟨r, d⟩, hfold⟩ := Option.isSome_iff_exists.mp hsome
  obtain ⟨h1, _, h3⟩ := nearest_fold_spec now (x :: l) none r d hfold
  rcases h1 with h1 | ⟨hmem, t, hpt, hd⟩
  · exact absurd h1 (by simp)
  have hvr : epochVal r = t := by simp [epochVal, hpt]
  have hdr : epochDist now r = d := by rw [epochDist, hvr, hd]
  obtain ⟨tieB, tieA⟩ := nearest_fold_tie now (x :: l) none r d hsorted
    (fun b bd hb => absurd hb (by simp)) hfold
  refine ⟨r, by simp [get_now_data, hfold], hmem, ?_, ?_⟩
  · intro sv hsv
    obtain ⟨tsv, hpsv⟩ := Option.isSome_iff_exists.mp (hok sv hsv)
    have hvs : epochVal sv = tsv := by simp [epochVal, hpsv]
    have := h3 sv hsv tsv hpsv
    rw [hdr, epochDist, hvs]
    exact this
  · intro sv hsv hdist
    obtain ⟨tsv, hpsv⟩ := Option.isSome_iff_exists.mp (hok sv hsv)
    have hvs : epochVal sv = tsv := by simp [epochVal, hpsv]
    refine tieA sv hsv tsv hpsv ?_
    rw [← hvs]
    calc (now - (epochVal sv : ℤ)).natAbs = epochDist now sv := rfl
      _ = epochDist now r := hdist
      _ = d := hdr

/-- C3 witness: a concrete sorted three-record series and a target between the
first two epochs, closer to the first. -/
theorem get_now_data_nearest_C3_witness :
    (∃ r, get_now_data [svA, svB, svC] 63908827300 = some r ∧ r ∈ [svA, svB, svC] ∧
      (∀ sv ∈ [svA, svB, svC], epochDist 63908827300 r ≤ epochDist 63908827300 sv) ∧
      (∀ sv ∈ [svA, svB, svC], epochDist 63908827300 sv = epochDist 63908827300 r →
        epochVal r ≤ epochVal sv)) ∧
    get_now_data [] 63908827300 = none :=
  get_now_data_nearest_C3 [svA, svB, svC] 63908827300 (by decide) (by decide) (by decide)

/-! ## C9 — `find_data_point` is total -/

/-- `find_data_point` returns `some v` exactly when the key path is present:
each key hits a dict level that contains it, reaching `v`. -/
theorem find_data_point_some_iff (data : JValue) (keys : List String) (v : JValue) :
    find_data_point data keys = some v ↔ PathTo data keys v := by
  induction keys generalizing data with
  | nil =>
    constructor
    · intro h
      obtain rfl : data = v := by simpa [find_data_point] using h
      exact PathTo.nil _
    · intro h
      cases h
      rfl
  | cons k ks ih =>
    constructor
    · intro h
      cases data with
      | obj fields =>
        rw [find_data_point] at h
        cases hlk : lookupField fields k with
        | some w =>
          rw [hlk] at h
          exact PathTo.cons fields k ks w v hlk ((ih w).mp h)
        | none =>
          rw [hlk] at h
          exact absurd h (by simp)
      | arr items => exact absurd h (by simp [find_data_point])
      | str s => exact absurd h (by simp [find_data_point])
      | num q => exact absurd h (by simp [find_data_point])
      | jbool b => exact absurd h (by simp [find_data_point])
      | null => exact absurd h (by simp [find_data_point])
    · intro h
      cases h with
      | cons fields k' ks' w v' hk hrest =>
        rw [find_data_point, hk]
        exact (ih w).mpr hrest

/-- C9: `find_data_point` is a total function of the dictionary and the key
path (the Lean model is total by construction, matching the source, whose
every access is guarded): it returns the nested value exactly when every key
of the path is present at a dict level, and returns `none` — it never raises —
exactly when a key is missing or an intermediate value is not a dict, i.e.
when no value sits at that path. -/
theorem find_data_point_total_C9 (data : JValue) (keys : List String) :
    (∀ v, find_data_point data keys = some v ↔ PathTo data keys v) ∧
    (find_data_point data keys = none ↔ ∀ w, ¬ PathTo data keys w) := by
  refine ⟨fun v => find_data_point_some_iff data keys v, ?_⟩
  cases hfd : find_data_point data keys with
  | some v =>
    simp only [reduceCtorEq, false_iff, not_forall, not_not]
    exact ⟨v, (find_data_point_some_iff data keys v).mp hfd⟩
  | none =>
    simp only [true_iff]
    intro w hw
    rw [(find_data_point_some_iff data keys w).mpr hw] at hfd
    exact absurd hfd (by simp)

/-! ## C10 — instantaneous speed -/

/-- C10: for all real velocity components the computed speed is
`sqrt (vx² + vy² + vz²)`, it is nonnegative, and its square is the sum of the
squares. -/
theorem instantaneous_speed_C10 (x y z : ℝ) :
    instantaneous_speed x y z = Real.sqrt (x ^ 2 + y ^ 2 + z ^ 2) ∧
    0 ≤ instantaneous_speed x y z ∧
    instantaneous_speed x y z ^ 2 = x ^ 2 + y ^ 2 + z ^ 2 :=
  ⟨rfl, Real.sqrt_nonneg _, Real.sq_sqrt (by positivity)⟩

end IssTracker
